import Mathlib

/-!
# Myosotis: cell coordinates, mesh arena and program entry

A shallow embedding of the parts of `mesh_grid.h`, `mesh.cpp`, `main.cpp`
and `myosotis.cpp` that the properties below are about, followed by the
properties themselves.

Machine integers are mathematical integers with explicit reduction modulo
`2^16` / `2^64` where the width matters.
-/

namespace Myosotis

/-! ## `mesh_grid.h`: `CellCoord` -/

/-- Range of an `int16_t`. -/
def isInt16 (v : Int) : Prop := -32768 ≤ v ∧ v ≤ 32767

instance (v : Int) : Decidable (isInt16 v) := by
  unfold isInt16; infer_instance

/-- Two's complement bit pattern of an `int16_t`, as a number below `2^16`. -/
def toU16 (v : Int) : Nat := (v % 65536).toNat

/-- Value of the `int16_t` whose bit pattern is the low 16 bits of `u`. -/
def toI16 (u : Nat) : Int :=
  if u % 65536 < 32768 then ((u % 65536 : Nat) : Int) else ((u % 65536 : Nat) : Int) - 65536

/-- The anonymous struct of `union CellCoord`: four `int16_t` fields, in
declaration order `lod, x, y, z` (byte offsets 0, 2, 4, 6). -/
structure CellCoord where
  lod : Int
  x : Int
  y : Int
  z : Int
deriving DecidableEq, Repr

/-- Every field holds an `int16_t` value. -/
def CellCoord.wf (c : CellCoord) : Prop :=
  isInt16 c.lod ∧ isInt16 c.x ∧ isInt16 c.y ∧ isInt16 c.z

instance (c : CellCoord) : Decidable c.wf := by
  unfold CellCoord.wf; infer_instance

/-- Bit position, inside the `uint64_t key`, of the 16-bit field stored at
byte offset `2 * i` of the union. On a little-endian machine the field at the
lowest address is the least significant one; on a big-endian machine it is
the most significant one. -/
def laneShift (bigEndian : Bool) (i : Nat) : Nat :=
  if bigEndian then 16 * (3 - i) else 16 * i

/-- The `key` member of the union: the same eight bytes read as one
`uint64_t`. -/
def CellCoord.key (bigEndian : Bool) (c : CellCoord) : Nat :=
  toU16 c.lod * 2 ^ laneShift bigEndian 0 + toU16 c.x * 2 ^ laneShift bigEndian 1
    + toU16 c.y * 2 ^ laneShift bigEndian 2 + toU16 c.z * 2 ^ laneShift bigEndian 3

/-- Reading the four fields back out of a `uint64_t key`. -/
def CellCoord.ofKey (bigEndian : Bool) (k : Nat) : CellCoord :=
  { lod := toI16 (k / 2 ^ laneShift bigEndian 0)
    x := toI16 (k / 2 ^ laneShift bigEndian 1)
    y := toI16 (k / 2 ^ laneShift bigEndian 2)
    z := toI16 (k / 2 ^ laneShift bigEndian 3) }

/-- The free `operator==(CellCoord, CellCoord)`: compares the keys only. -/
def CellCoord.eq (bigEndian : Bool) (c1 c2 : CellCoord) : Bool :=
  decide (c1.key bigEndian = c2.key bigEndian)

/-! ## `mesh_grid.h`: `CellCoordHasher` -/

/-- The constant `CellCoordHasher::empty_key = {{-1, 0, 0, 0}}`. -/
def CellCoordHasher.empty_key : CellCoord := { lod := -1, x := 0, y := 0, z := 0 }

/-- The method `CellCoordHasher::is_empty`: `coord == empty_key`. -/
def CellCoordHasher.is_empty (bigEndian : Bool) (coord : CellCoord) : Bool :=
  CellCoord.eq bigEndian coord CellCoordHasher.empty_key

/-- The method `CellCoordHasher::is_equal`: `c1 == c2`. -/
def CellCoordHasher.is_equal (bigEndian : Bool) (c1 c2 : CellCoord) : Bool :=
  CellCoord.eq bigEndian c1 c2

/-- Modelled from the spec: `parent_coord` is only declared in `mesh_grid.h`
(line 50); its body is not among the sources. The data model gives the parent
of `(lod, x, y, z)` as `(lod+1, x>>1, y>>1, z>>1)` with arithmetic shift. -/
def parent_coord (coord : CellCoord) : CellCoord :=
  { lod := coord.lod + 1
    x := coord.x >>> (1 : Nat)
    y := coord.y >>> (1 : Nat)
    z := coord.z >>> (1 : Nat) }

/-! ## `mesh.cpp`: the arena `MBuf` -/

/-- An array owned by the arena, seen through its pointer: `none` is the null
pointer, `some n` a heap block holding `n` elements. -/
abbrev Arr := Option Nat

/-- The six arrays of the arena. -/
inductive ArrId where
  | indices
  | positions
  | normals
  | uv0
  | uv1
  | remap
deriving DecidableEq, Repr

/-- The bits `VtxAttr::NML`, `UV0`, `UV1`, `MAP` tested by `reserve_vertices`.
They are declared in `mesh.h`, which is not among the sources, so their values
are parameters. -/
structure VtxAttr where
  NML : Nat
  UV0 : Nat
  UV1 : Nat
  MAP : Nat
deriving DecidableEq, Repr

/-- The members of `MBuf` used by `mesh.cpp`. -/
structure MBuf where
  vtx_attr : Nat
  idx_capacity : Nat
  vtx_capacity : Nat
  indices : Arr
  positions : Arr
  normals : Arr
  uv0 : Arr
  uv1 : Arr
  remap : Arr
deriving DecidableEq, Repr

/-- Why a call did not complete: a failed `assert`, or a failed allocation. -/
inductive Fault where
  | assertion
  | alloc
deriving DecidableEq, Repr

/-- Whether the allocator can serve, during one call, the request to resize
the given array to the given number of elements. -/
abbrev Heap := ArrId → Nat → Bool

/-- Modelled from the spec: the macro `MEMFREE` of `sys_utils.h` (not among
the sources). `clear()` is to release all arrays: the block is freed and the
pointer is left null. -/
def MEMFREE (_ptr : Arr) : Arr := none

/-- Modelled from the spec: the macro `REALLOC_NUM` of `sys_utils.h` (not
among the sources). It resizes the block to `num` elements (allocating it when
the pointer is null); the reserve operations fail on allocation failure. -/
def REALLOC_NUM (heap : Heap) (id : ArrId) (_ptr : Arr) (num : Nat) : Except Fault Arr :=
  if heap id num then Except.ok (some num) else Except.error Fault.alloc

/-- The method `MBuf::clear` (mesh.cpp 12-22). -/
def MBuf.clear (m : MBuf) : MBuf :=
  { m with
    indices := MEMFREE m.indices
    idx_capacity := 0
    positions := MEMFREE m.positions
    normals := MEMFREE m.normals
    uv0 := MEMFREE m.uv0
    uv1 := MEMFREE m.uv1
    remap := MEMFREE m.remap
    vtx_capacity := 0 }

/-- The method `MBuf::reserve_indices` (mesh.cpp 24-36); `assert` is active. -/
def MBuf.reserve_indices (heap : Heap) (m : MBuf) (num : Nat) (shrink : Bool) :
    Except Fault MBuf :=
  if ¬ (num > 0) then Except.error Fault.assertion
  else if (decide (num ≤ m.idx_capacity)) && (!shrink) then Except.ok m
  else
    match REALLOC_NUM heap ArrId.indices m.indices num with
    | Except.error e => Except.error e
    | Except.ok indices => Except.ok { m with indices := indices, idx_capacity := num }

/-- One guarded `REALLOC_NUM` of `reserve_vertices`: `if (cond) { REALLOC_NUM(ptr, num); }`. -/
def reallocIf (cond : Bool) (heap : Heap) (id : ArrId) (ptr : Arr) (num : Nat) :
    Except Fault Arr :=
  if cond then REALLOC_NUM heap id ptr num else Except.ok ptr

/-- The method `MBuf::reserve_vertices` (mesh.cpp 38-69); `assert` is active. -/
def MBuf.reserve_vertices (A : VtxAttr) (heap : Heap) (m : MBuf) (num : Nat) (shrink : Bool) :
    Except Fault MBuf :=
  if ¬ (num > 0) then Except.error Fault.assertion
  else if (decide (num ≤ m.vtx_capacity)) && (!shrink) then Except.ok m
  else
    match reallocIf true heap ArrId.positions m.positions num with
    | Except.error e => Except.error e
    | Except.ok positions =>
    match reallocIf (decide (m.vtx_attr &&& A.NML ≠ 0)) heap ArrId.normals m.normals num with
    | Except.error e => Except.error e
    | Except.ok normals =>
    match reallocIf (decide (m.vtx_attr &&& A.UV0 ≠ 0)) heap ArrId.uv0 m.uv0 num with
    | Except.error e => Except.error e
    | Except.ok uv0 =>
    match reallocIf (decide (m.vtx_attr &&& A.UV1 ≠ 0)) heap ArrId.uv1 m.uv1 num with
    | Except.error e => Except.error e
    | Except.ok uv1 =>
    match reallocIf (decide (m.vtx_attr &&& A.MAP ≠ 0)) heap ArrId.remap m.remap num with
    | Except.error e => Except.error e
    | Except.ok remap =>
      Except.ok { m with
        positions := positions
        normals := normals
        uv0 := uv0
        uv1 := uv1
        remap := remap
        vtx_capacity := num }

/-- The arrays `reserve_vertices` resizes for a given `vtx_attr`. -/
def vtxRequested (A : VtxAttr) (vtx_attr : Nat) (id : ArrId) : Bool :=
  match id with
  | ArrId.indices => false
  | ArrId.positions => true
  | ArrId.normals => decide (vtx_attr &&& A.NML ≠ 0)
  | ArrId.uv0 => decide (vtx_attr &&& A.UV0 ≠ 0)
  | ArrId.uv1 => decide (vtx_attr &&& A.UV1 ≠ 0)
  | ArrId.remap => decide (vtx_attr &&& A.MAP ≠ 0)

/-! ## `main.cpp`: argument handling and mesh loading (lines 38-68)

C strings are given by their bytes, without the terminating NUL. The strings
of `argv` lie one after the other in memory, each followed by its NUL, so that
the byte just before `argv[1]` is the NUL that ends `argv[0]`. -/

/-- How far `main` gets in its loading block. -/
inductive MainOutcome where
  /-- Returned `EXIT_FAILURE` before any grid is built. -/
  | exit_failure
  /-- Control leaves the loading block (line 68) and goes on to build the grid. -/
  | past_loading
deriving DecidableEq, Repr

/-- The bytes of the string literal "obj". -/
def lit_obj : List Nat := [111, 98, 106]

/-- The bytes of the string literal "ply". -/
def lit_ply : List Nat := [112, 108, 121]

/-- The library call `strlen` on a C string given by its bytes. -/
def strlen (s : List Nat) : Nat := s.length

/-- The C string that starts a byte buffer: the bytes before the first NUL. -/
def cstr (buf : List Nat) : List Nat := buf.takeWhile (fun b => decide (b ≠ 0))

/-- The test `strncmp(s1, s2, n) == 0` on two byte buffers: the C strings they
start agree on their first `n` bytes. -/
def strncmp_eq0 (s1 s2 : List Nat) (n : Nat) : Bool :=
  decide ((cstr s1).take n = (cstr s2).take n)

/-- The byte stored at displacement `off` from the first byte of `argv[1]`.
From 0 on these are the bytes of `argv[1]` and its NUL; at -1 it is the NUL of
`argv[0]`, before that the bytes of `argv[0]` read backwards, and before those
the memory that precedes `argv[0]`, given by `before`. -/
def byte_at (before : Nat → Nat) (prog name : List Nat) (off : Int) : Nat :=
  if 0 ≤ off then (name ++ [0]).getD off.toNat 0
  else (0 :: prog.reverse).getD ((-off).toNat - 1) (before ((-off).toNat - 2 - prog.length))

/-- The displacement of `ext = argv[1] + (len - 3)` from `argv[1]`: `len - 3`
is computed in `size_t` (64 bits) and added to the pointer, which moves it by
`len - 3` bytes, backwards when `len < 3`. -/
def ext_displacement (len : Nat) : Int :=
  if (len + 2 ^ 64 - 3) % 2 ^ 64 < 2 ^ 63 then (((len + 2 ^ 64 - 3) % 2 ^ 64 : Nat) : Int)
  else (((len + 2 ^ 64 - 3) % 2 ^ 64 : Nat) : Int) - 2 ^ 64

/-- The three bytes that `strncmp(ext, ..., 3)` can read from `ext`. -/
def ext_bytes (before : Nat → Nat) (prog name : List Nat) : List Nat :=
  [byte_at before prog name (ext_displacement (strlen name)),
    byte_at before prog name (ext_displacement (strlen name) + 1),
    byte_at before prog name (ext_displacement (strlen name) + 2)]

/-- The function `main` up to the end of its loading block. `argc` is the
length of `argv`; the loaders of `mesh_io.h` are parameters giving their return
value for a file name. -/
def main (load_obj load_ply : List Nat → Int) (before : Nat → Nat) (argv : List (List Nat)) :
    MainOutcome :=
  if argv.length ≤ 1 then MainOutcome.exit_failure
  else
    let prog := argv.getD 0 []
    let name := argv.getD 1 []
    let ext := ext_bytes before prog name
    if strncmp_eq0 ext lit_obj 3 then
      if load_obj name ≠ 0 then MainOutcome.exit_failure else MainOutcome.past_loading
    else if strncmp_eq0 ext lit_ply 3 then
      if load_ply name ≠ 0 then MainOutcome.exit_failure else MainOutcome.past_loading
    else MainOutcome.exit_failure

/-! ## `myosotis.cpp`: `set_kappa` (lines 261-267) -/

/-- The values of a floating-point number: not-a-number, the two infinities
and the finite values. -/
inductive FVal where
  | nan
  | ninf
  | pinf
  | fin (q : ℚ)
deriving DecidableEq

/-- The comparison `a > b` of two floating-point values; false when either is
not a number. -/
def FVal.gt : FVal → FVal → Bool
  | FVal.nan, _ => false
  | _, FVal.nan => false
  | FVal.pinf, FVal.pinf => false
  | FVal.pinf, _ => true
  | _, FVal.pinf => false
  | FVal.ninf, _ => false
  | FVal.fin _, FVal.ninf => true
  | FVal.fin a, FVal.fin b => decide (b < a)

/-- The comparison `a < b`. -/
def FVal.lt (a b : FVal) : Bool := FVal.gt b a

/-- The comparison `a >= b`; false when either is not a number. -/
def FVal.ge : FVal → FVal → Bool
  | FVal.nan, _ => false
  | _, FVal.nan => false
  | FVal.pinf, _ => true
  | _, FVal.ninf => true
  | FVal.ninf, _ => false
  | FVal.fin _, FVal.pinf => false
  | FVal.fin a, FVal.fin b => decide (b ≤ a)

/-- The arithmetic used by `set_kappa`, with its rounding left open:
multiplication, division, `tan`, the constant `PI` (a macro that is not among
the sources) and the conversion of the quotient to `float`. -/
structure FloatOps where
  mul : FVal → FVal → FVal
  div : FVal → FVal → FVal
  tan : FVal → FVal
  PI : FVal
  toFloat : FVal → FVal

/-- The local `tmp` of `set_kappa`:
`screen_width * mean_relative_error / (pixel_error * tan(fov * PI / 360))`,
stored in a `float`. -/
def set_kappa_tmp (F : FloatOps) (screen_width mean_relative_error pixel_error fov : FVal) :
    FVal :=
  F.toFloat (F.div (F.mul screen_width mean_relative_error)
    (F.mul pixel_error (F.tan (F.div (F.mul fov F.PI) (FVal.fin 360)))))

/-- The function `set_kappa`: `return tmp > 4 ? tmp : 4;`. -/
def set_kappa (F : FloatOps) (screen_width mean_relative_error pixel_error fov : FVal) : FVal :=
  if FVal.gt (set_kappa_tmp F screen_width mean_relative_error pixel_error fov) (FVal.fin 4)
  then set_kappa_tmp F screen_width mean_relative_error pixel_error fov
  else FVal.fin 4

/-! ## `main.cpp`: choice of the octree depth (lines 103-118) -/

/-- The macro `TARGET_CELL_IDX_COUNT`, `(1 << 16)`. -/
def TARGET_CELL_IDX_COUNT : Nat := 1 <<< 16

/-- The condition of the `while` loop,
`(1ul << (2 * max_level + 2)) * TARGET_CELL_IDX_COUNT < mesh.index_count`,
with the shift and the product computed in `unsigned long` (64 bits). -/
def level_loop_cond (max_level index_count : Nat) : Bool :=
  decide (((1 <<< (2 * max_level + 2)) % 2 ^ 64 * TARGET_CELL_IDX_COUNT) % 2 ^ 64 < index_count)

/-- The `while` loop of lines 108-113, started with the given `max_level`:
while the condition holds, `max_level += 1` and `break` when it reaches 15.
Each iteration uses one unit of fuel; `none` means the fuel ran out. -/
def max_level_loop (index_count : Nat) : Nat → Nat → Option Nat
  | 0, _ => none
  | fuel + 1, max_level =>
    if level_loop_cond max_level index_count then
      if max_level + 1 = 15 then some (max_level + 1)
      else max_level_loop index_count fuel (max_level + 1)
    else some max_level

/-- The `else` branch of line 106: `max_level = 0;` followed by the loop. -/
def auto_max_level (fuel index_count : Nat) : Option Nat :=
  max_level_loop index_count fuel 0

/-- The `int` shift `1 << max_level` of line 125: its value when it is
representable in a 32-bit `int`, `none` otherwise. -/
def int_shl_one (max_level : Nat) : Option Int :=
  if max_level < 31 then some ((1 <<< max_level : Nat) : Int) else none

/-! ## `main.cpp`: grid parameters (lines 94-98 and 125-128)

The corners of the bounding box are finite `float` values, given as rationals.
A `float` operation on finite operands is the exact operation followed by a
rounding, which can also overflow to an infinity. -/

/-- One call on the arena: `clear()`, `reserve_indices(num, shrink)` or
`reserve_vertices(num, shrink)`. -/
inductive ArenaOp where
  | clear
  | reserve_indices (num : Nat) (shrink : Bool)
  | reserve_vertices (num : Nat) (shrink : Bool)
deriving DecidableEq, Repr

/-- The requested count of a reserve call is positive. -/
def ArenaOp.positive : ArenaOp → Bool
  | ArenaOp.clear => true
  | ArenaOp.reserve_indices num _ => decide (0 < num)
  | ArenaOp.reserve_vertices num _ => decide (0 < num)

/-- Performing one call, with the allocator behaviour during that call. -/
def ArenaOp.apply (A : VtxAttr) (heap : Heap) (m : MBuf) : ArenaOp → Except Fault MBuf
  | ArenaOp.clear => Except.ok m.clear
  | ArenaOp.reserve_indices num shrink => m.reserve_indices heap num shrink
  | ArenaOp.reserve_vertices num shrink => m.reserve_vertices A heap num shrink

/-- Performing a sequence of calls in order, each with its own allocator
behaviour; the run stops at the first call that does not complete. -/
def run_ops (A : VtxAttr) : MBuf → List (Heap × ArenaOp) → Except Fault MBuf
  | m, [] => Except.ok m
  | m, (heap, op) :: rest =>
    match op.apply A heap m with
    | Except.error e => Except.error e
    | Except.ok m1 => run_ops A m1 rest

/-- The empty arena: no array allocated, both capacities 0. -/
def MBuf.empty (vtx_attr : Nat) : MBuf :=
  { vtx_attr := vtx_attr, idx_capacity := 0, vtx_capacity := 0, indices := none,
    positions := none, normals := none, uv0 := none, uv1 := none, remap := none }

/-- Number of elements an array holds: none for the null pointer. -/
def Arr.count : Arr → Nat
  | none => 0
  | some n => n

/-- The size invariant of the arena: `indices` holds `idx_capacity` elements,
`positions` holds `vtx_capacity` elements, and each optional array holds
`vtx_capacity` elements when its bit is set in `vtx_attr` and is unallocated
when its bit is not set. -/
def ArenaInv (A : VtxAttr) (m : MBuf) : Prop :=
  Arr.count m.indices = m.idx_capacity
    ∧ Arr.count m.positions = m.vtx_capacity
    ∧ (if m.vtx_attr &&& A.NML ≠ 0 then Arr.count m.normals = m.vtx_capacity else m.normals = none)
    ∧ (if m.vtx_attr &&& A.UV0 ≠ 0 then Arr.count m.uv0 = m.vtx_capacity else m.uv0 = none)
    ∧ (if m.vtx_attr &&& A.UV1 ≠ 0 then Arr.count m.uv1 = m.vtx_capacity else m.uv1 = none)
    ∧ (if m.vtx_attr &&& A.MAP ≠ 0 then Arr.count m.remap = m.vtx_capacity else m.remap = none)

instance (A : VtxAttr) (m : MBuf) : Decidable (ArenaInv A m) := by
  unfold ArenaInv; infer_instance

/-! ## Properties -/

theorem toU16_lt (v : Int) : toU16 v < 65536 := by
  unfold toU16; omega

theorem toI16_toU16 (v : Int) (h : isInt16 v) : toI16 (toU16 v) = v := by
  unfold isInt16 at h
  unfold toI16 toU16
  split <;> omega

theorem toU16_toI16 (u : Nat) : toU16 (toI16 u) = u % 65536 := by
  unfold toI16 toU16
  split <;> omega

theorem isInt16_toI16 (u : Nat) : isInt16 (toI16 u) := by
  unfold toI16 isInt16
  split <;> omega

theorem key_lt (be : Bool) (c : CellCoord) : c.key be < 2 ^ 64 := by
  have h0 := toU16_lt c.lod
  have h1 := toU16_lt c.x
  have h2 := toU16_lt c.y
  have h3 := toU16_lt c.z
  cases be <;> simp only [CellCoord.key, laneShift] <;> norm_num <;> omega

theorem toI16_congr (u v : Nat) (h : u % 65536 = v) (hv : v < 65536) : toI16 u = toI16 v := by
  unfold toI16
  have : v % 65536 = v := Nat.mod_eq_of_lt hv
  rw [h, this]

theorem lanes (a b c d : Nat) (ha : a < 65536) (hb : b < 65536) (hc : c < 65536)
    (hd : d < 65536) :
    (a + b * 65536 + c * 4294967296 + d * 281474976710656) % 65536 = a
    ∧ (a + b * 65536 + c * 4294967296 + d * 281474976710656) / 65536 % 65536 = b
    ∧ (a + b * 65536 + c * 4294967296 + d * 281474976710656) / 4294967296 % 65536 = c
    ∧ (a + b * 65536 + c * 4294967296 + d * 281474976710656) / 281474976710656 % 65536 = d := by
  omega

theorem ofKey_key (be : Bool) (c : CellCoord) (h : c.wf) :
    CellCoord.ofKey be (c.key be) = c := by
  obtain ⟨hl, hx, hy, hz⟩ := h
  have h0 := toU16_lt c.lod
  have h1 := toU16_lt c.x
  have h2 := toU16_lt c.y
  have h3 := toU16_lt c.z
  have e0 := toI16_toU16 c.lod hl
  have e1 := toI16_toU16 c.x hx
  have e2 := toI16_toU16 c.y hy
  have e3 := toI16_toU16 c.z hz
  cases be
  · obtain ⟨l0, l1, l2, l3⟩ := lanes (toU16 c.lod) (toU16 c.x) (toU16 c.y) (toU16 c.z) h0 h1 h2 h3
    cases c
    simp only [CellCoord.ofKey, CellCoord.key, laneShift] at *
    norm_num at *
    refine ⟨?_, ?_, ?_, ?_⟩
    · rw [toI16_congr _ _ l0 h0, e0]
    · rw [toI16_congr _ _ l1 h1, e1]
    · rw [toI16_congr _ _ l2 h2, e2]
    · rw [toI16_congr _ _ l3 h3, e3]
  · obtain ⟨l0, l1, l2, l3⟩ := lanes (toU16 c.z) (toU16 c.y) (toU16 c.x) (toU16 c.lod) h3 h2 h1 h0
    cases c
    simp only [CellCoord.ofKey, CellCoord.key, laneShift] at *
    norm_num at *
    refine ⟨?_, ?_, ?_, ?_⟩
    · rw [toI16_congr _ _ (by omega) h0, e0]
    · rw [toI16_congr _ _ (by omega) h1, e1]
    · rw [toI16_congr _ _ (by omega) h2, e2]
    · rw [toI16_congr _ _ (by omega) h3, e3]

theorem key_inj (be : Bool) (c1 c2 : CellCoord) (h1 : c1.wf) (h2 : c2.wf)
    (h : c1.key be = c2.key be) : c1 = c2 := by
  rw [← ofKey_key be c1 h1, ← ofKey_key be c2 h2, h]

theorem eq_iff (be : Bool) (c1 c2 : CellCoord) (h1 : c1.wf) (h2 : c2.wf) :
    CellCoord.eq be c1 c2 = true ↔ c1 = c2 := by
  unfold CellCoord.eq
  rw [decide_eq_true_iff]
  constructor
  · exact key_inj be c1 c2 h1 h2
  · intro h; rw [h]

theorem key_ofKey (be : Bool) (k : Nat) (hk : k < 2 ^ 64) :
    (CellCoord.ofKey be k).key be = k := by
  cases be <;>
    simp only [CellCoord.ofKey, CellCoord.key, laneShift, toU16_toI16] <;>
    norm_num <;> omega

/-- C1: the four signed 16-bit fields are packed into the 64-bit key without
loss. For any two coordinates, `==` (which compares the keys) holds exactly
when the four fields agree; equal keys force equal coordinates; reading the
fields back out of the key returns the original fields; and the key fits in 64
bits. This holds for either byte order. -/
theorem CellCoord_key_lossless (be : Bool) (c1 c2 : CellCoord) (h1 : c1.wf) (h2 : c2.wf) :
    (CellCoord.eq be c1 c2 = true ↔
        (c1.lod = c2.lod ∧ c1.x = c2.x ∧ c1.y = c2.y ∧ c1.z = c2.z))
      ∧ (c1.key be = c2.key be → c1 = c2)
      ∧ CellCoord.ofKey be (c1.key be) = c1
      ∧ c1.key be < 2 ^ 64 := by
  refine ⟨?_, key_inj be c1 c2 h1 h2, ofKey_key be c1 h1, key_lt be c1⟩
  rw [eq_iff be c1 c2 h1 h2]
  constructor
  · intro h; subst h; exact ⟨rfl, rfl, rfl, rfl⟩
  · rintro ⟨a, b, c, d⟩
    cases c1; cases c2; simp_all

/-- Witness for C1 at two coordinates with negative fields. -/
theorem CellCoord_key_lossless_witness :
    (CellCoord.mk (-1) (-32768) 32767 (-5)).wf ∧ (CellCoord.mk (-1) 3 (-2) 7).wf
      ∧ ((CellCoord.eq false (CellCoord.mk (-1) (-32768) 32767 (-5)) (CellCoord.mk (-1) 3 (-2) 7)
            = true ↔
          ((CellCoord.mk (-1) (-32768) 32767 (-5)).lod = (CellCoord.mk (-1) 3 (-2) 7).lod
            ∧ (CellCoord.mk (-1) (-32768) 32767 (-5)).x = (CellCoord.mk (-1) 3 (-2) 7).x
            ∧ (CellCoord.mk (-1) (-32768) 32767 (-5)).y = (CellCoord.mk (-1) 3 (-2) 7).y
            ∧ (CellCoord.mk (-1) (-32768) 32767 (-5)).z = (CellCoord.mk (-1) 3 (-2) 7).z))
        ∧ ((CellCoord.mk (-1) (-32768) 32767 (-5)).key false = (CellCoord.mk (-1) 3 (-2) 7).key false
            → CellCoord.mk (-1) (-32768) 32767 (-5) = CellCoord.mk (-1) 3 (-2) 7)
        ∧ CellCoord.ofKey false ((CellCoord.mk (-1) (-32768) 32767 (-5)).key false)
            = CellCoord.mk (-1) (-32768) 32767 (-5)
        ∧ (CellCoord.mk (-1) (-32768) 32767 (-5)).key false < 2 ^ 64) :=
  ⟨by decide, by decide,
    CellCoord_key_lossless false (CellCoord.mk (-1) (-32768) 32767 (-5))
      (CellCoord.mk (-1) 3 (-2) 7) (by decide) (by decide)⟩

theorem shiftRight_one_bounds (v : Int) : 2 * (v >>> (1 : Nat)) ≤ v ∧ v < 2 * (v >>> (1 : Nat)) + 2 := by
  rw [Int.shiftRight_eq_div_pow]
  norm_num
  omega

theorem shiftRight_one_child (v : Int) (i : Fin 2) : (2 * v + ((i : Nat) : Int)) >>> (1 : Nat) = v := by
  rw [Int.shiftRight_eq_div_pow]
  have := i.isLt
  norm_num
  omega

theorem shiftRight_one_floor (v : Int) : v >>> (1 : Nat) = Int.floor ((v : ℚ) / 2) := by
  have hb := shiftRight_one_bounds v
  symm
  rw [Int.floor_eq_iff]
  constructor
  · rw [le_div_iff₀ (by norm_num)]
    have : ((v >>> (1 : Nat) : Int) : ℚ) * 2 = ((2 * (v >>> (1 : Nat)) : Int) : ℚ) := by push_cast; ring
    rw [this]; exact_mod_cast hb.1
  · rw [div_lt_iff₀ (by norm_num)]
    have : (((v >>> (1 : Nat) : Int) : ℚ) + 1) * 2 = ((2 * (v >>> (1 : Nat)) + 2 : Int) : ℚ) := by push_cast; ring
    rw [this]; exact_mod_cast hb.2

theorem parent_coord_wf (c : CellCoord) (h : c.wf) (hl : c.lod < 32767) :
    (parent_coord c).wf := by
  obtain ⟨h0, h1, h2, h3⟩ := h
  unfold isInt16 at h0 h1 h2 h3
  have bx := shiftRight_one_bounds c.x
  have by1 := shiftRight_one_bounds c.y
  have bz := shiftRight_one_bounds c.z
  refine ⟨?_, ?_, ?_, ?_⟩ <;> simp only [parent_coord, isInt16] <;> omega

/-- C2: `parent_coord` sends `(lod, x, y, z)` to `(lod+1, x>>1, y>>1, z>>1)`,
where each shifted component is the floor of half the component (also when it
is negative); and for every parent `p` and every `i, j, k` in `{0, 1}` the
parent of the child `(p.lod-1, 2*p.x+i, 2*p.y+j, 2*p.z+k)` is `p`. -/
theorem parent_coord_spec (c p : CellCoord) (i j k : Fin 2) :
    parent_coord c = CellCoord.mk (c.lod + 1) (c.x >>> (1 : Nat)) (c.y >>> (1 : Nat)) (c.z >>> (1 : Nat))
      ∧ (parent_coord c).x = Int.floor ((c.x : ℚ) / 2)
      ∧ (parent_coord c).y = Int.floor ((c.y : ℚ) / 2)
      ∧ (parent_coord c).z = Int.floor ((c.z : ℚ) / 2)
      ∧ parent_coord (CellCoord.mk (p.lod - 1) (2 * p.x + ((i : Nat) : Int))
          (2 * p.y + ((j : Nat) : Int)) (2 * p.z + ((k : Nat) : Int))) = p := by
  refine ⟨rfl, shiftRight_one_floor c.x, shiftRight_one_floor c.y, shiftRight_one_floor c.z, ?_⟩
  cases p
  simp only [parent_coord, shiftRight_one_child]
  simp

/-- C3: the empty-slot test recognises exactly the reserved coordinate
`(-1, 0, 0, 0)`: `is_empty c` holds exactly when `c` is that coordinate, it
fails for every coordinate with `lod >= 0`, and `is_equal` is `==`, which holds
exactly for equal coordinates. -/
theorem is_empty_iff (be : Bool) (c c2 : CellCoord) (h : c.wf) (h2 : c2.wf) :
    (CellCoordHasher.is_empty be c = true ↔ c = CellCoord.mk (-1) 0 0 0)
      ∧ (0 ≤ c.lod → CellCoordHasher.is_empty be c = false)
      ∧ CellCoordHasher.is_equal be c c2 = CellCoord.eq be c c2
      ∧ (CellCoordHasher.is_equal be c c2 = true ↔ c = c2) := by
  have he : CellCoordHasher.empty_key.wf := by decide
  have h1 : CellCoordHasher.is_empty be c = true ↔ c = CellCoord.mk (-1) 0 0 0 := by
    unfold CellCoordHasher.is_empty
    rw [eq_iff be c _ h he]
    rfl
  refine ⟨h1, ?_, rfl, eq_iff be c c2 h h2⟩
  intro hl
  cases hb : CellCoordHasher.is_empty be c
  · rfl
  · rw [h1.mp hb] at hl
    exact absurd hl (by decide)

/-- Witness for C3 at a level-0 coordinate and the reserved coordinate. -/
theorem is_empty_iff_witness :
    (CellCoord.mk 0 (-3) 0 12).wf ∧ (CellCoord.mk (-1) 0 0 0).wf
      ∧ ((CellCoordHasher.is_empty true (CellCoord.mk 0 (-3) 0 12) = true
            ↔ CellCoord.mk 0 (-3) 0 12 = CellCoord.mk (-1) 0 0 0)
        ∧ (0 ≤ (CellCoord.mk 0 (-3) 0 12).lod
            → CellCoordHasher.is_empty true (CellCoord.mk 0 (-3) 0 12) = false)
        ∧ CellCoordHasher.is_equal true (CellCoord.mk 0 (-3) 0 12) (CellCoord.mk (-1) 0 0 0)
            = CellCoord.eq true (CellCoord.mk 0 (-3) 0 12) (CellCoord.mk (-1) 0 0 0)
        ∧ (CellCoordHasher.is_equal true (CellCoord.mk 0 (-3) 0 12) (CellCoord.mk (-1) 0 0 0) = true
            ↔ CellCoord.mk 0 (-3) 0 12 = CellCoord.mk (-1) 0 0 0)) :=
  ⟨by decide, by decide,
    is_empty_iff true (CellCoord.mk 0 (-3) 0 12) (CellCoord.mk (-1) 0 0 0) (by decide) (by decide)⟩

theorem reserve_indices_eq (heap : Heap) (m : MBuf) (n : Nat) (shrink : Bool) (hn : 0 < n)
    (hheap : heap ArrId.indices n = true) :
    m.reserve_indices heap n shrink =
      Except.ok (if n ≤ m.idx_capacity ∧ shrink = false then m
        else { m with indices := some n, idx_capacity := n }) := by
  unfold MBuf.reserve_indices REALLOC_NUM
  by_cases hc : n ≤ m.idx_capacity <;> cases shrink <;> simp [hn, hc, hheap, Nat.pos_iff_ne_zero.mp hn]

theorem reserve_indices_noop (heap : Heap) (m : MBuf) (n : Nat) (hn : 0 < n)
    (hc : n ≤ m.idx_capacity) : m.reserve_indices heap n false = Except.ok m := by
  unfold MBuf.reserve_indices
  simp [hc, Nat.pos_iff_ne_zero.mp hn]

theorem reallocIf_eq (c : Bool) (heap : Heap) (id : ArrId) (ptr : Arr) (n : Nat)
    (h : c = true → heap id n = true) :
    reallocIf c heap id ptr n = Except.ok (if c then some n else ptr) := by
  unfold reallocIf REALLOC_NUM
  cases c
  · simp
  · simp [h rfl]

theorem reserve_vertices_eq (A : VtxAttr) (heap : Heap) (m : MBuf) (n : Nat) (shrink : Bool)
    (hn : 0 < n) (hheap : ∀ id, vtxRequested A m.vtx_attr id = true → heap id n = true) :
    m.reserve_vertices A heap n shrink =
      Except.ok (if n ≤ m.vtx_capacity ∧ shrink = false then m
        else { m with
          positions := some n
          normals := if m.vtx_attr &&& A.NML ≠ 0 then some n else m.normals
          uv0 := if m.vtx_attr &&& A.UV0 ≠ 0 then some n else m.uv0
          uv1 := if m.vtx_attr &&& A.UV1 ≠ 0 then some n else m.uv1
          remap := if m.vtx_attr &&& A.MAP ≠ 0 then some n else m.remap
          vtx_capacity := n }) := by
  have p0 := reallocIf_eq true heap ArrId.positions m.positions n (fun _ => hheap ArrId.positions rfl)
  have p1 := reallocIf_eq (decide (m.vtx_attr &&& A.NML ≠ 0)) heap ArrId.normals m.normals n
    (hheap ArrId.normals)
  have p2 := reallocIf_eq (decide (m.vtx_attr &&& A.UV0 ≠ 0)) heap ArrId.uv0 m.uv0 n
    (hheap ArrId.uv0)
  have p3 := reallocIf_eq (decide (m.vtx_attr &&& A.UV1 ≠ 0)) heap ArrId.uv1 m.uv1 n
    (hheap ArrId.uv1)
  have p4 := reallocIf_eq (decide (m.vtx_attr &&& A.MAP ≠ 0)) heap ArrId.remap m.remap n
    (hheap ArrId.remap)
  unfold MBuf.reserve_vertices
  rw [p0, p1, p2, p3, p4]
  by_cases hc : n ≤ m.vtx_capacity <;> cases shrink <;> simp [hc, Nat.pos_iff_ne_zero.mp hn]

theorem reserve_vertices_noop (A : VtxAttr) (heap : Heap) (m : MBuf) (n : Nat) (hn : 0 < n)
    (hc : n ≤ m.vtx_capacity) : m.reserve_vertices A heap n false = Except.ok m := by
  unfold MBuf.reserve_vertices
  simp [hc, Nat.pos_iff_ne_zero.mp hn]

/-- C4: for every arena state, every `n > 0` and every shrink flag, when the
allocation succeeds `reserve_indices(n, shrink)` completes with an index
capacity of at least `n`, of exactly `n` when `shrink` is set; and when
`shrink` is not set and `n <= idx_capacity` the call returns the arena
unchanged, whatever the allocator would do. -/
theorem reserve_indices_spec (heap : Heap) (m : MBuf) (n : Nat) (shrink : Bool) (hn : 0 < n)
    (hheap : heap ArrId.indices n = true) :
    ∃ m1, m.reserve_indices heap n shrink = Except.ok m1
      ∧ n ≤ m1.idx_capacity
      ∧ (shrink = true → m1.idx_capacity = n)
      ∧ (shrink = false → n ≤ m.idx_capacity →
          m1 = m ∧ ∀ heap1 : Heap, m.reserve_indices heap1 n shrink = Except.ok m) := by
  refine ⟨_, reserve_indices_eq heap m n shrink hn hheap, ?_, ?_, ?_⟩
  · split
    · rename_i h; exact h.1
    · exact Nat.le_refl n
  · intro hs
    simp [hs]
  · intro hs hc
    subst hs
    refine ⟨by simp [hc], fun heap1 => reserve_indices_noop heap1 m n hn hc⟩

/-- Witness for C4: growing an arena of 4 indices to 9. -/
theorem reserve_indices_spec_witness :
    0 < 9 ∧ (fun (_ : ArrId) (k : Nat) => decide (k < 100)) ArrId.indices 9 = true
      ∧ ∃ m1, (MBuf.mk 0 4 0 (some 4) none none none none none).reserve_indices
            (fun _ k => decide (k < 100)) 9 false = Except.ok m1
        ∧ 9 ≤ m1.idx_capacity
        ∧ (false = true → m1.idx_capacity = 9)
        ∧ (false = false → 9 ≤ (MBuf.mk 0 4 0 (some 4) none none none none none).idx_capacity →
            m1 = MBuf.mk 0 4 0 (some 4) none none none none none
              ∧ ∀ heap1 : Heap, (MBuf.mk 0 4 0 (some 4) none none none none none).reserve_indices
                  heap1 9 false = Except.ok (MBuf.mk 0 4 0 (some 4) none none none none none)) :=
  ⟨by decide, by decide,
    reserve_indices_spec (fun _ k => decide (k < 100))
      (MBuf.mk 0 4 0 (some 4) none none none none none) 9 false (by decide) (by decide)⟩

/-- C5: for every arena state, every `n > 0` and every shrink flag, when the
allocations it asks for succeed `reserve_vertices(n, shrink)` completes with a
vertex capacity of at least `n`, of exactly `n` when `shrink` is set. Whenever
it reallocates (`shrink` set or `n > vtx_capacity`), `positions` is resized to
`n`, each of `normals`, `uv[0]`, `uv[1]`, `remap` is resized to `n` when its
bit is set in `vtx_attr` and is left as it was when its bit is not set; the
index side and `vtx_attr` are not touched. Otherwise the arena is unchanged. -/
theorem reserve_vertices_spec (A : VtxAttr) (heap : Heap) (m : MBuf) (n : Nat) (shrink : Bool)
    (hn : 0 < n) (hheap : ∀ id, vtxRequested A m.vtx_attr id = true → heap id n = true) :
    ∃ m1, m.reserve_vertices A heap n shrink = Except.ok m1
      ∧ n ≤ m1.vtx_capacity
      ∧ (shrink = true → m1.vtx_capacity = n)
      ∧ ((shrink = true ∨ m.vtx_capacity < n) →
          m1.vtx_capacity = n
          ∧ m1.positions = some n
          ∧ (m.vtx_attr &&& A.NML ≠ 0 → m1.normals = some n)
          ∧ (m.vtx_attr &&& A.NML = 0 → m1.normals = m.normals)
          ∧ (m.vtx_attr &&& A.UV0 ≠ 0 → m1.uv0 = some n)
          ∧ (m.vtx_attr &&& A.UV0 = 0 → m1.uv0 = m.uv0)
          ∧ (m.vtx_attr &&& A.UV1 ≠ 0 → m1.uv1 = some n)
          ∧ (m.vtx_attr &&& A.UV1 = 0 → m1.uv1 = m.uv1)
          ∧ (m.vtx_attr &&& A.MAP ≠ 0 → m1.remap = some n)
          ∧ (m.vtx_attr &&& A.MAP = 0 → m1.remap = m.remap)
          ∧ m1.indices = m.indices ∧ m1.idx_capacity = m.idx_capacity
          ∧ m1.vtx_attr = m.vtx_attr)
      ∧ (shrink = false → n ≤ m.vtx_capacity → m1 = m) := by
  refine ⟨_, reserve_vertices_eq A heap m n shrink hn hheap, ?_, ?_, ?_, ?_⟩
  · split
    · rename_i h; exact h.1
    · exact Nat.le_refl n
  · intro hs
    simp [hs]
  · intro hs
    have hnot : ¬ (n ≤ m.vtx_capacity ∧ shrink = false) := by
      rintro ⟨h1, h2⟩
      rcases hs with hs | hs
      · rw [h2] at hs; exact Bool.noConfusion hs
      · omega
    rw [if_neg hnot]
    refine ⟨rfl, rfl, ?_, ?_, ?_, ?_, ?_, ?_, ?_, ?_, rfl, rfl, rfl⟩ <;> intro hb <;> simp [hb]
  · intro hs hc
    simp [hs, hc]

/-- Witness for C5: an arena with normals and remap enabled (bits 1 and 8 of
`vtx_attr = 9`), grown from 2 to 5 vertices. -/
theorem reserve_vertices_spec_witness :
    0 < 5
      ∧ (∀ id, vtxRequested (VtxAttr.mk 1 2 4 8) (MBuf.mk 9 0 2 none (some 2) (some 2) none none
            (some 2)).vtx_attr id = true → (fun (_ : ArrId) (_ : Nat) => true) id 5 = true)
      ∧ ∃ m1, (MBuf.mk 9 0 2 none (some 2) (some 2) none none (some 2)).reserve_vertices
            (VtxAttr.mk 1 2 4 8) (fun _ _ => true) 5 false = Except.ok m1
        ∧ 5 ≤ m1.vtx_capacity ∧ m1.positions = some 5 ∧ m1.normals = some 5
        ∧ m1.uv0 = none ∧ m1.uv1 = none ∧ m1.remap = some 5 :=
  ⟨by decide, fun _ _ => rfl, by
    obtain ⟨m1, h1, h2, _, h4, _⟩ := reserve_vertices_spec (VtxAttr.mk 1 2 4 8) (fun _ _ => true)
      (MBuf.mk 9 0 2 none (some 2) (some 2) none none (some 2)) 5 false (by decide)
      (fun _ _ => rfl)
    obtain ⟨_, hp, hn1, _, _, hu0, _, hu1, hr, _⟩ := h4 (Or.inr (by decide))
    exact ⟨m1, h1, h2, hp, hn1 (by decide), hu0 (by decide), hu1 (by decide), hr (by decide)⟩⟩

theorem reallocIf_error (c : Bool) (heap : Heap) (id : ArrId) (ptr : Arr) (n : Nat) (e : Fault)
    (h : reallocIf c heap id ptr n = Except.error e) :
    e = Fault.alloc ∧ c = true ∧ heap id n = false := by
  unfold reallocIf REALLOC_NUM at h
  cases c
  · simp at h
  · cases hh : heap id n
    · simp [hh] at h
      exact ⟨h.symm, rfl, rfl⟩
    · simp [hh] at h

theorem reserve_indices_error (heap : Heap) (m : MBuf) (n : Nat) (shrink : Bool) (e : Fault)
    (hn : 0 < n) (h : m.reserve_indices heap n shrink = Except.error e) :
    e = Fault.alloc ∧ heap ArrId.indices n = false := by
  cases hh : heap ArrId.indices n
  · unfold MBuf.reserve_indices REALLOC_NUM at h
    simp only [hh, hn, gt_iff_lt, not_true_eq_false, if_false] at h
    split at h
    · simp at h
    · simp at h
      exact ⟨h.symm, rfl⟩
  · rw [reserve_indices_eq heap m n shrink hn hh] at h
    simp at h

theorem reserve_vertices_error (A : VtxAttr) (heap : Heap) (m : MBuf) (n : Nat) (shrink : Bool)
    (e : Fault) (hn : 0 < n) (h : m.reserve_vertices A heap n shrink = Except.error e) :
    e = Fault.alloc ∧ ∃ id, vtxRequested A m.vtx_attr id = true ∧ heap id n = false := by
  unfold MBuf.reserve_vertices at h
  simp only [hn, gt_iff_lt, not_true_eq_false, if_false] at h
  split at h
  · simp at h
  · split at h
    · rename_i e0 h0
      obtain ⟨h1, h2, h3⟩ := reallocIf_error _ _ _ _ _ _ h0
      simp only [Except.error.injEq] at h
      exact ⟨h ▸ h1, ArrId.positions, rfl, h3⟩
    · split at h
      · rename_i e0 h0
        obtain ⟨h1, h2, h3⟩ := reallocIf_error _ _ _ _ _ _ h0
        simp only [Except.error.injEq] at h
        exact ⟨h ▸ h1, ArrId.normals, h2, h3⟩
      · split at h
        · rename_i e0 h0
          obtain ⟨h1, h2, h3⟩ := reallocIf_error _ _ _ _ _ _ h0
          simp only [Except.error.injEq] at h
          exact ⟨h ▸ h1, ArrId.uv0, h2, h3⟩
        · split at h
          · rename_i e0 h0
            obtain ⟨h1, h2, h3⟩ := reallocIf_error _ _ _ _ _ _ h0
            simp only [Except.error.injEq] at h
            exact ⟨h ▸ h1, ArrId.uv1, h2, h3⟩
          · split at h
            · rename_i e0 h0
              obtain ⟨h1, h2, h3⟩ := reallocIf_error _ _ _ _ _ _ h0
              simp only [Except.error.injEq] at h
              exact ⟨h ▸ h1, ArrId.remap, h2, h3⟩
            · simp at h

/-- C6, as stated, fails at `n = 0`: with an allocator that never fails, both
reserve operations stop at `assert(num > 0)` instead of completing. -/
theorem reserve_zero_stops_at_assert :
    (∀ id k, (fun (_ : ArrId) (_ : Nat) => true) id k = true)
      ∧ (MBuf.mk 0 0 0 none none none none none none).reserve_indices (fun _ _ => true) 0 false
          = Except.error Fault.assertion
      ∧ (MBuf.mk 0 0 0 none none none none none none).reserve_vertices (VtxAttr.mk 1 2 4 8)
          (fun _ _ => true) 0 false = Except.error Fault.assertion
      ∧ ¬ ∃ m1, (MBuf.mk 0 0 0 none none none none none none).reserve_indices
          (fun _ _ => true) 0 false = Except.ok m1 :=
  ⟨fun _ _ => rfl, rfl, rfl, by
    rintro ⟨m1, h⟩
    exact Except.noConfusion h⟩

/-- C6 (amended): for every `n > 0` and every shrink flag, each reserve
operation completes and establishes its capacity postcondition when the
allocations it asks for succeed, and when it does not complete the fault is an
allocation failure of an array it asked to resize. -/
theorem reserve_fails_only_on_alloc (A : VtxAttr) (heap : Heap) (m : MBuf) (n : Nat)
    (shrink : Bool) (hn : 0 < n) :
    (heap ArrId.indices n = true →
        ∃ m1, m.reserve_indices heap n shrink = Except.ok m1 ∧ n ≤ m1.idx_capacity)
      ∧ ((∀ id, vtxRequested A m.vtx_attr id = true → heap id n = true) →
        ∃ m1, m.reserve_vertices A heap n shrink = Except.ok m1 ∧ n ≤ m1.vtx_capacity)
      ∧ (∀ e, m.reserve_indices heap n shrink = Except.error e →
        e = Fault.alloc ∧ heap ArrId.indices n = false)
      ∧ (∀ e, m.reserve_vertices A heap n shrink = Except.error e →
        e = Fault.alloc ∧ ∃ id, vtxRequested A m.vtx_attr id = true ∧ heap id n = false) := by
  refine ⟨?_, ?_, fun e => reserve_indices_error heap m n shrink e hn,
    fun e => reserve_vertices_error A heap m n shrink e hn⟩
  · intro hheap
    refine ⟨_, reserve_indices_eq heap m n shrink hn hheap, ?_⟩
    split
    · rename_i h; exact h.1
    · exact Nat.le_refl n
  · intro hheap
    refine ⟨_, reserve_vertices_eq A heap m n shrink hn hheap, ?_⟩
    split
    · rename_i h; exact h.1
    · exact Nat.le_refl n

/-- Witness for C6 (amended): an allocator that serves `indices` but not
`positions`, at `n = 3`. -/
theorem reserve_fails_only_on_alloc_witness :
    0 < 3
      ∧ (∃ m1, (MBuf.mk 0 0 0 none none none none none none).reserve_indices
          (fun id _ => decide (id = ArrId.indices)) 3 true = Except.ok m1 ∧ 3 ≤ m1.idx_capacity)
      ∧ (∀ e, (MBuf.mk 0 0 0 none none none none none none).reserve_vertices (VtxAttr.mk 1 2 4 8)
          (fun id _ => decide (id = ArrId.indices)) 3 true = Except.error e → e = Fault.alloc) :=
  ⟨by decide,
    (reserve_fails_only_on_alloc (VtxAttr.mk 1 2 4 8) (fun id _ => decide (id = ArrId.indices))
      (MBuf.mk 0 0 0 none none none none none none) 3 true (by decide)).1 (by decide),
    fun e h => ((reserve_fails_only_on_alloc (VtxAttr.mk 1 2 4 8)
      (fun id _ => decide (id = ArrId.indices))
      (MBuf.mk 0 0 0 none none none none none none) 3 true (by decide)).2.2.2 e h).1⟩

/-- C7, as stated, fails when `shrink` is set: reserving 5 with `shrink` on an
arena whose capacities are 10 completes and leaves both capacities at 5. -/
theorem reserve_shrink_reduces_capacity :
    0 < 5
      ∧ (∃ m1, (MBuf.mk 0 10 10 (some 10) (some 10) none none none none).reserve_indices
          (fun _ _ => true) 5 true = Except.ok m1
          ∧ m1.idx_capacity < (MBuf.mk 0 10 10 (some 10) (some 10) none none none none).idx_capacity)
      ∧ (∃ m1, (MBuf.mk 0 10 10 (some 10) (some 10) none none none none).reserve_vertices
          (VtxAttr.mk 1 2 4 8) (fun _ _ => true) 5 true = Except.ok m1
          ∧ m1.vtx_capacity < (MBuf.mk 0 10 10 (some 10) (some 10) none none none none).vtx_capacity) :=
  ⟨by decide, ⟨_, rfl, by decide⟩, ⟨_, rfl, by decide⟩⟩

/-- C7 (amended): for every arena state and every `n > 0`, when the
allocations succeed, a reserve without `shrink` never lowers the capacity
(`idx_capacity` for `reserve_indices`, `vtx_capacity` for `reserve_vertices`),
and a reserve with `shrink` sets the capacity to exactly `n`, so it does not
lower it when `n` is at least the capacity before. -/
theorem reserve_capacity_monotone (A : VtxAttr) (heap : Heap) (m : MBuf) (n : Nat)
    (shrink : Bool) (hn : 0 < n) (hi : heap ArrId.indices n = true)
    (hv : ∀ id, vtxRequested A m.vtx_attr id = true → heap id n = true) :
    ∃ mi mv, m.reserve_indices heap n shrink = Except.ok mi
      ∧ m.reserve_vertices A heap n shrink = Except.ok mv
      ∧ (shrink = false → m.idx_capacity ≤ mi.idx_capacity ∧ m.vtx_capacity ≤ mv.vtx_capacity)
      ∧ (shrink = true → mi.idx_capacity = n ∧ mv.vtx_capacity = n)
      ∧ (m.idx_capacity ≤ n → m.idx_capacity ≤ mi.idx_capacity)
      ∧ (m.vtx_capacity ≤ n → m.vtx_capacity ≤ mv.vtx_capacity) := by
  refine ⟨_, _, reserve_indices_eq heap m n shrink hn hi,
    reserve_vertices_eq A heap m n shrink hn hv, ?_, ?_, ?_, ?_⟩
  · intro hs
    subst hs
    constructor
    · by_cases hc : n ≤ m.idx_capacity
      · simp [hc]
      · simp [hc]; omega
    · by_cases hc : n ≤ m.vtx_capacity
      · simp [hc]
      · simp [hc]; omega
  · intro hs
    subst hs
    simp
  · intro hc
    split
    · exact Nat.le_refl _
    · exact hc
  · intro hc
    split
    · exact Nat.le_refl _
    · exact hc

/-- Witness for C7 (amended): growing capacities 10 to 12 without `shrink`. -/
theorem reserve_capacity_monotone_witness :
    0 < 12 ∧ (fun (_ : ArrId) (_ : Nat) => true) ArrId.indices 12 = true
      ∧ ∃ mi mv, (MBuf.mk 0 10 10 (some 10) (some 10) none none none none).reserve_indices
            (fun _ _ => true) 12 false = Except.ok mi
        ∧ (MBuf.mk 0 10 10 (some 10) (some 10) none none none none).reserve_vertices
            (VtxAttr.mk 1 2 4 8) (fun _ _ => true) 12 false = Except.ok mv
        ∧ 10 ≤ mi.idx_capacity ∧ 10 ≤ mv.vtx_capacity :=
  ⟨by decide, rfl, by
    obtain ⟨mi, mv, h1, h2, h3, _⟩ := reserve_capacity_monotone (VtxAttr.mk 1 2 4 8)
      (fun _ _ => true) (MBuf.mk 0 10 10 (some 10) (some 10) none none none none) 12 false
      (by decide) rfl (fun _ _ => rfl)
    exact ⟨mi, mv, h1, h2, (h3 rfl).1, (h3 rfl).2⟩⟩

/-- C8: for every arena state, `clear()` leaves all six arrays released (null)
and both capacities at 0, whatever `vtx_attr` is (which it keeps); clearing
twice gives the same state as clearing once. -/
theorem clear_spec (m : MBuf) :
    m.clear.indices = none ∧ m.clear.positions = none ∧ m.clear.normals = none
      ∧ m.clear.uv0 = none ∧ m.clear.uv1 = none ∧ m.clear.remap = none
      ∧ m.clear.idx_capacity = 0 ∧ m.clear.vtx_capacity = 0
      ∧ m.clear.vtx_attr = m.vtx_attr
      ∧ m.clear.clear = m.clear :=
  ⟨rfl, rfl, rfl, rfl, rfl, rfl, rfl, rfl, rfl, rfl⟩

theorem main_no_argument (load_obj load_ply : List Nat → Int) (before : Nat → Nat)
    (argv : List (List Nat)) (h : argv.length ≤ 1) :
    main load_obj load_ply before argv = MainOutcome.exit_failure := by
  unfold main
  simp [h]

theorem strncmp3_obj_iff (x y z : Nat) :
    strncmp_eq0 [x, y, z] lit_obj 3 = true ↔ [x, y, z] = lit_obj := by
  unfold strncmp_eq0 cstr lit_obj
  rw [decide_eq_true_iff]
  by_cases hx : x = 0 <;> by_cases hy : y = 0 <;> by_cases hz : z = 0 <;>
    simp [List.takeWhile, hx, hy, hz]

theorem strncmp3_ply_iff (x y z : Nat) :
    strncmp_eq0 [x, y, z] lit_ply 3 = true ↔ [x, y, z] = lit_ply := by
  unfold strncmp_eq0 cstr lit_ply
  rw [decide_eq_true_iff]
  by_cases hx : x = 0 <;> by_cases hy : y = 0 <;> by_cases hz : z = 0 <;>
    simp [List.takeWhile, hx, hy, hz]

theorem ext_bytes_long (before : Nat → Nat) (prog name : List Nat) (h3 : 3 ≤ name.length)
    (h63 : name.length < 2 ^ 63) :
    ext_bytes before prog name = name.drop (name.length - 3) := by
  have hd : ext_displacement name.length = ((name.length - 3 : Nat) : Int) := by
    unfold ext_displacement
    have : (name.length + 2 ^ 64 - 3) % 2 ^ 64 = name.length - 3 := by omega
    rw [this, if_pos (by omega)]
  have hl : (name.drop (name.length - 3)).length = 3 := by
    rw [List.length_drop]; omega
  have hsplit : name = name.take (name.length - 3) ++ name.drop (name.length - 3) :=
    (List.take_append_drop _ _).symm
  have hpl : (name.take (name.length - 3)).length = name.length - 3 := by
    rw [List.length_take]; omega
  generalize name.take (name.length - 3) = pre at hsplit hpl
  generalize name.drop (name.length - 3) = suf at hsplit hl
  match suf, hl with
  | [a, b, c], _ =>
    unfold ext_bytes strlen byte_at
    rw [hd]
    have e0 : (((name.length - 3 : Nat) : Int)).toNat = pre.length := by rw [hpl]; simp
    have e1 : (((name.length - 3 : Nat) : Int) + 1).toNat = pre.length + 1 := by rw [hpl]; omega
    have e2 : (((name.length - 3 : Nat) : Int) + 2).toNat = pre.length + 2 := by rw [hpl]; omega
    rw [if_pos (by omega), if_pos (by omega), if_pos (by omega), e0, e1, e2, hsplit]
    simp only [List.getD_eq_getElem?_getD, List.append_assoc, List.cons_append, List.nil_append]
    rw [List.getElem?_append_right (Nat.le_refl _), List.getElem?_append_right (by omega),
      List.getElem?_append_right (by omega)]
    simp

theorem ext_bytes_short (before : Nat → Nat) (prog name : List Nat) (h3 : name.length < 3) :
    ∃ x y z, ext_bytes before prog name = [x, y, z] ∧ (x = 0 ∨ y = 0 ∨ z = 0) := by
  refine ⟨_, _, _, rfl, ?_⟩
  have hlen : name.length = 0 ∨ name.length = 1 ∨ name.length = 2 := by omega
  rcases hlen with h | h | h
  · right; right
    simp [strlen, h, ext_displacement, byte_at]
  · right; left
    simp [strlen, h, ext_displacement, byte_at]
  · left
    simp [strlen, h, ext_displacement, byte_at]

theorem main_cons_eq (load_obj load_ply : List Nat → Int) (before : Nat → Nat)
    (prog name : List Nat) (rest : List (List Nat)) (h63 : name.length < 2 ^ 63) :
    main load_obj load_ply before (prog :: name :: rest) =
      if name.drop (name.length - 3) = lit_obj then
        (if load_obj name ≠ 0 then MainOutcome.exit_failure else MainOutcome.past_loading)
      else if name.drop (name.length - 3) = lit_ply then
        (if load_ply name ≠ 0 then MainOutcome.exit_failure else MainOutcome.past_loading)
      else MainOutcome.exit_failure := by
  have hargc : ¬ ((prog :: name :: rest).length ≤ 1) := by
    simp only [List.length_cons]; omega
  unfold main
  rw [if_neg hargc]
  simp only [List.getD_cons_zero, List.getD_cons_succ]
  by_cases h3 : 3 ≤ name.length
  · have hl : (name.drop (name.length - 3)).length = 3 := by
      rw [List.length_drop]; omega
    rw [ext_bytes_long before prog name h3 h63]
    generalize name.drop (name.length - 3) = suf at hl
    match suf, hl with
    | [a, b, c], _ =>
      by_cases ho : [a, b, c] = lit_obj
      · rw [if_pos ((strncmp3_obj_iff a b c).mpr ho), if_pos ho]
      · have ho2 : ¬ (strncmp_eq0 [a, b, c] lit_obj 3 = true) :=
          fun h => ho ((strncmp3_obj_iff a b c).mp h)
        rw [if_neg ho2, if_neg ho]
        by_cases hp : [a, b, c] = lit_ply
        · rw [if_pos ((strncmp3_ply_iff a b c).mpr hp), if_pos hp]
        · have hp2 : ¬ (strncmp_eq0 [a, b, c] lit_ply 3 = true) :=
            fun h => hp ((strncmp3_ply_iff a b c).mp h)
          rw [if_neg hp2, if_neg hp]
  · have hshort : name.length < 3 := by omega
    obtain ⟨x, y, z, he, hz⟩ := ext_bytes_short before prog name hshort
    rw [he]
    have ho : ¬ ([x, y, z] = lit_obj) := by
      intro h
      simp only [lit_obj, List.cons.injEq] at h
      omega
    have hp : ¬ ([x, y, z] = lit_ply) := by
      intro h
      simp only [lit_ply, List.cons.injEq] at h
      omega
    have ho2 : ¬ (strncmp_eq0 [x, y, z] lit_obj 3 = true) :=
      fun h => ho ((strncmp3_obj_iff x y z).mp h)
    have hp2 : ¬ (strncmp_eq0 [x, y, z] lit_ply 3 = true) :=
      fun h => hp ((strncmp3_ply_iff x y z).mp h)
    have hdo : ¬ (name.drop (name.length - 3) = lit_obj) := by
      intro h
      have := congrArg List.length h
      rw [List.length_drop] at this
      simp only [lit_obj, List.length_cons, List.length_nil] at this
      omega
    have hdp : ¬ (name.drop (name.length - 3) = lit_ply) := by
      intro h
      have := congrArg List.length h
      rw [List.length_drop] at this
      simp only [lit_ply, List.length_cons, List.length_nil] at this
      omega
    rw [if_neg ho2, if_neg hp2, if_neg hdo, if_neg hdp]

/-- C9: `main` returns `EXIT_FAILURE`, without going on to build a grid, when
no mesh file argument is given, when the last three bytes of the file name
are neither "obj" nor "ply" (in particular when the name has fewer than three
bytes), and when the loader selected by the extension returns non-zero; it
gets past loading exactly when the extension is one of the two and its loader
returned 0. -/
theorem main_exit_failure_spec (load_obj load_ply : List Nat → Int) (before : Nat → Nat)
    (prog name : List Nat) (rest : List (List Nat)) (h63 : name.length < 2 ^ 63) :
    (∀ argv0 : List (List Nat), argv0.length ≤ 1 →
        main load_obj load_ply before argv0 = MainOutcome.exit_failure)
      ∧ (name.drop (name.length - 3) ≠ lit_obj → name.drop (name.length - 3) ≠ lit_ply →
        main load_obj load_ply before (prog :: name :: rest) = MainOutcome.exit_failure)
      ∧ (name.length < 3 →
        main load_obj load_ply before (prog :: name :: rest) = MainOutcome.exit_failure)
      ∧ (name.drop (name.length - 3) = lit_obj → load_obj name ≠ 0 →
        main load_obj load_ply before (prog :: name :: rest) = MainOutcome.exit_failure)
      ∧ (name.drop (name.length - 3) = lit_ply → load_ply name ≠ 0 →
        main load_obj load_ply before (prog :: name :: rest) = MainOutcome.exit_failure)
      ∧ (main load_obj load_ply before (prog :: name :: rest) = MainOutcome.past_loading ↔
        (name.drop (name.length - 3) = lit_obj ∧ load_obj name = 0)
          ∨ (name.drop (name.length - 3) = lit_ply ∧ load_ply name = 0)) := by
  have hne : lit_obj ≠ lit_ply := by decide
  have hmain := main_cons_eq load_obj load_ply before prog name rest h63
  refine ⟨fun argv0 h => main_no_argument load_obj load_ply before argv0 h, ?_, ?_, ?_, ?_, ?_⟩
  · intro ho hp
    rw [hmain, if_neg ho, if_neg hp]
  · intro hshort
    have hlen : (name.drop (name.length - 3)).length < 3 := by
      rw [List.length_drop]; omega
    have ho : name.drop (name.length - 3) ≠ lit_obj := by
      intro h; rw [h] at hlen; simp [lit_obj] at hlen
    have hp : name.drop (name.length - 3) ≠ lit_ply := by
      intro h; rw [h] at hlen; simp [lit_ply] at hlen
    rw [hmain, if_neg ho, if_neg hp]
  · intro ho hl
    rw [hmain, if_pos ho, if_pos hl]
  · intro hp hl
    have ho : name.drop (name.length - 3) ≠ lit_obj := fun h => hne (h.symm.trans hp)
    rw [hmain, if_neg ho, if_pos hp, if_pos hl]
  · rw [hmain]
    by_cases ho : name.drop (name.length - 3) = lit_obj
    · rw [if_pos ho]
      by_cases hl : load_obj name = 0
      · rw [if_neg (not_not.mpr hl)]
        exact ⟨fun _ => Or.inl ⟨ho, hl⟩, fun _ => rfl⟩
      · rw [if_pos hl]
        constructor
        · intro h; exact MainOutcome.noConfusion h
        · rintro (⟨_, h⟩ | ⟨h, _⟩)
          · exact absurd h hl
          · exact absurd (ho.symm.trans h) hne
    · rw [if_neg ho]
      by_cases hp : name.drop (name.length - 3) = lit_ply
      · rw [if_pos hp]
        by_cases hl : load_ply name = 0
        · rw [if_neg (not_not.mpr hl)]
          exact ⟨fun _ => Or.inr ⟨hp, hl⟩, fun _ => rfl⟩
        · rw [if_pos hl]
          constructor
          · intro h; exact MainOutcome.noConfusion h
          · rintro (⟨h, _⟩ | ⟨_, h⟩)
            · exact absurd h ho
            · exact absurd h hl
      · rw [if_neg hp]
        constructor
        · intro h; exact MainOutcome.noConfusion h
        · rintro (⟨h, _⟩ | ⟨h, _⟩)
          · exact absurd h ho
          · exact absurd h hp

/-- Witness for C9: the command line `myosotis ab`, with loaders that would
succeed and bytes "ob" in the memory before `argv[0]`. -/
theorem main_exit_failure_spec_witness :
    [97, 98].length < 2 ^ 63
      ∧ main (fun _ => 0) (fun _ => 0) (fun k => if k = 0 then 98 else 111)
          [[109, 121, 111, 115, 111, 116, 105, 115], [97, 98]] = MainOutcome.exit_failure :=
  ⟨by decide,
    (main_exit_failure_spec (fun _ => 0) (fun _ => 0) (fun k => if k = 0 then 98 else 111)
      [109, 121, 111, 115, 111, 116, 105, 115] [97, 98] [] (by decide)).2.2.1 (by decide)⟩

theorem gt_four_ge (t : FVal) (h : FVal.gt t (FVal.fin 4) = true) :
    FVal.ge t (FVal.fin 4) = true := by
  cases t with
  | nan => simp [FVal.gt] at h
  | ninf => simp [FVal.gt] at h
  | pinf => simp [FVal.ge]
  | fin q =>
    simp only [FVal.gt, decide_eq_true_eq] at h
    simp only [FVal.ge, decide_eq_true_eq]
    exact le_of_lt h

theorem set_kappa_cases (F : FloatOps) (screen_width mean_relative_error pixel_error fov : FVal) :
    (FVal.gt (set_kappa_tmp F screen_width mean_relative_error pixel_error fov) (FVal.fin 4) = true
        → set_kappa F screen_width mean_relative_error pixel_error fov
            = set_kappa_tmp F screen_width mean_relative_error pixel_error fov)
      ∧ (FVal.gt (set_kappa_tmp F screen_width mean_relative_error pixel_error fov) (FVal.fin 4)
            = false
        → set_kappa F screen_width mean_relative_error pixel_error fov = FVal.fin 4)
      ∧ FVal.lt (set_kappa F screen_width mean_relative_error pixel_error fov) (FVal.fin 4) = false
      ∧ FVal.ge (set_kappa F screen_width mean_relative_error pixel_error fov) (FVal.fin 4) = true
      ∧ set_kappa F screen_width mean_relative_error pixel_error fov ≠ FVal.nan := by
  cases hg : FVal.gt (set_kappa_tmp F screen_width mean_relative_error pixel_error fov) (FVal.fin 4)
  · have hk : set_kappa F screen_width mean_relative_error pixel_error fov = FVal.fin 4 := by
      unfold set_kappa; simp [hg]
    rw [hk]
    refine ⟨fun h => Bool.noConfusion h, fun _ => rfl, ?_, ?_, ?_⟩
    · simp [FVal.lt, FVal.gt]
    · simp [FVal.ge]
    · intro h; exact FVal.noConfusion h
  · have hk : set_kappa F screen_width mean_relative_error pixel_error fov
        = set_kappa_tmp F screen_width mean_relative_error pixel_error fov := by
      unfold set_kappa; simp [hg]
    rw [hk]
    refine ⟨fun _ => rfl, fun h => Bool.noConfusion h, ?_, gt_four_ge _ hg, ?_⟩
    · generalize set_kappa_tmp F screen_width mean_relative_error pixel_error fov = t at hg
      cases t with
      | nan => simp [FVal.gt] at hg
      | ninf => simp [FVal.gt] at hg
      | pinf => simp [FVal.lt, FVal.gt]
      | fin q =>
        simp only [FVal.gt, decide_eq_true_eq] at hg
        simp only [FVal.lt, FVal.gt, decide_eq_false_iff_not, not_lt]
        exact le_of_lt hg
    · intro h
      rw [h] at hg
      simp [FVal.gt] at hg

/-- C10: `set_kappa` has a floor of 4. With
`t = screen_width * mean_relative_error / (pixel_error * tan(fov * PI / 360))`
as the function computes it and stores it in a `float`, it returns `t` when
`t > 4` and 4 otherwise (also when `t` is not a number); its result is never
below 4, and is at least 4 in the floating-point order, so it is never
not-a-number. -/
theorem set_kappa_floor (F : FloatOps) (screen_width mean_relative_error pixel_error fov : FVal) :
    ∃ t, t = F.toFloat (F.div (F.mul screen_width mean_relative_error)
          (F.mul pixel_error (F.tan (F.div (F.mul fov F.PI) (FVal.fin 360)))))
      ∧ (FVal.gt t (FVal.fin 4) = true
        → set_kappa F screen_width mean_relative_error pixel_error fov = t)
      ∧ (FVal.gt t (FVal.fin 4) = false
        → set_kappa F screen_width mean_relative_error pixel_error fov = FVal.fin 4)
      ∧ FVal.lt (set_kappa F screen_width mean_relative_error pixel_error fov) (FVal.fin 4) = false
      ∧ FVal.ge (set_kappa F screen_width mean_relative_error pixel_error fov) (FVal.fin 4) = true
      ∧ set_kappa F screen_width mean_relative_error pixel_error fov ≠ FVal.nan :=
  ⟨set_kappa_tmp F screen_width mean_relative_error pixel_error fov, rfl,
    set_kappa_cases F screen_width mean_relative_error pixel_error fov⟩

theorem level_loop_cond_iff (k ic : Nat) (hk : k ≤ 14) :
    level_loop_cond k ic = true ↔ 4 ^ (k + 1) * 65536 < ic := by
  unfold level_loop_cond TARGET_CELL_IDX_COUNT
  rw [decide_eq_true_iff]
  interval_cases k <;> norm_num [Nat.shiftLeft_eq]

theorem max_level_loop_spec (ic : Nat) :
    ∀ fuel m : Nat, m ≤ 14 → 15 ≤ fuel + m →
      (∀ k, k < m → level_loop_cond k ic = true) →
      ∃ r, max_level_loop ic fuel m = some r ∧ m ≤ r ∧ r ≤ 15
        ∧ (∀ k, k < r → level_loop_cond k ic = true)
        ∧ (r < 15 → level_loop_cond r ic = false) := by
  intro fuel
  induction fuel with
  | zero => intro m hm hf _; omega
  | succ fuel ih =>
    intro m hm hf hpre
    unfold max_level_loop
    cases hc : level_loop_cond m ic
    · exact ⟨m, by simp, Nat.le_refl m, by omega, hpre, fun _ => hc⟩
    · have hstep : ∀ k, k < m + 1 → level_loop_cond k ic = true := by
        intro k hk
        rcases Nat.lt_succ_iff_lt_or_eq.mp hk with h | h
        · exact hpre k h
        · rw [h]; exact hc
      by_cases h15 : m + 1 = 15
      · refine ⟨15, by simp [h15], by omega, Nat.le_refl 15, ?_, fun h => absurd h (by omega)⟩
        rw [← h15]; exact hstep
      · obtain ⟨r, hr, h1, h2, h3, h4⟩ := ih (m + 1) (by omega) (by omega) hstep
        exact ⟨r, by simp [h15, hr], by omega, h2, h3, h4⟩

theorem auto_max_level_loop (ic fuel : Nat) (hfuel : 15 ≤ fuel) :
    ∃ m, auto_max_level fuel ic = some m ∧ m ≤ 15
      ∧ (∀ k, k < m → 4 ^ (k + 1) * 65536 < ic)
      ∧ (m < 15 → ic ≤ 4 ^ (m + 1) * 65536) := by
  obtain ⟨r, hr, _, h15, hlt, hge⟩ :=
    max_level_loop_spec ic fuel 0 (by omega) (by omega) (fun k hk => absurd hk (by omega))
  refine ⟨r, hr, h15, ?_, ?_⟩
  · intro k hk
    exact (level_loop_cond_iff k ic (by omega)).mp (hlt k hk)
  · intro hr15
    have hc := hge hr15
    by_contra hcon
    have := (level_loop_cond_iff r ic (by omega)).mpr (by omega)
    rw [hc] at this
    exact Bool.noConfusion this

/-- C11: with no `max_level` argument, the loop of `main` terminates for
every index count (15 units of fuel are enough) and returns a level `m` in
`0..15` that is the least one with `4^(m+1) * 65536 >= index_count`, or 15
when no level below 15 satisfies this. It is 0 for every
`index_count <= 2^18`, and for a result `m >= 1` also
`4^m * 65536 < index_count`. -/
theorem auto_max_level_least (index_count fuel : Nat) (hfuel : 15 ≤ fuel) :
    ∃ m, auto_max_level fuel index_count = some m
      ∧ m ≤ 15
      ∧ (m < 15 → index_count ≤ 4 ^ (m + 1) * 65536)
      ∧ (∀ k, k < m → ¬ (index_count ≤ 4 ^ (k + 1) * 65536))
      ∧ (m = 15 ↔ ∀ k, k < 15 → ¬ (index_count ≤ 4 ^ (k + 1) * 65536))
      ∧ (index_count ≤ 2 ^ 18 → m = 0)
      ∧ (1 ≤ m → 4 ^ m * 65536 < index_count) := by
  obtain ⟨m, hm, h15, hlt, hge⟩ := auto_max_level_loop index_count fuel hfuel
  refine ⟨m, hm, h15, hge, fun k hk => Nat.not_le.mpr (hlt k hk), ?_, ?_, ?_⟩
  · constructor
    · intro h k hk
      exact Nat.not_le.mpr (hlt k (by omega))
    · intro h
      by_contra hne
      exact h m (by omega) (hge (by omega))
  · intro hsmall
    by_contra hne
    have := hlt 0 (by omega)
    norm_num at this hsmall
    omega
  · intro h1
    have := hlt (m - 1) (by omega)
    rwa [Nat.sub_add_cancel h1] at this

/-- Witness for C11: a mesh of one million indices, 15 units of fuel. -/
theorem auto_max_level_least_witness :
    15 ≤ 15
      ∧ ∃ m, auto_max_level 15 1000000 = some m
        ∧ m ≤ 15
        ∧ (m < 15 → 1000000 ≤ 4 ^ (m + 1) * 65536)
        ∧ (∀ k, k < m → ¬ (1000000 ≤ 4 ^ (k + 1) * 65536))
        ∧ (m = 15 ↔ ∀ k, k < 15 → ¬ (1000000 ≤ 4 ^ (k + 1) * 65536))
        ∧ (1000000 ≤ 2 ^ 18 → m = 0)
        ∧ (1 ≤ m → 4 ^ m * 65536 < 1000000) :=
  ⟨by decide, auto_max_level_least 1000000 15 (by decide)⟩

/-- C12: for every index count below `2^32` the loop of `main` returns a level
`m <= 7`, so the cap of 15 is not reached; at every level the loop evaluates,
the shift and the product `(1 << (2*k+2)) * 65536` stay below `2^64`;
`2^m <= 128`; the `int` shift `1 << m` is representable and equals `2^m`; and
every grid coordinate in `0..2^m`, with a level in `0..m`, fits the signed
16-bit fields of `CellCoord`. -/
theorem auto_max_level_le_seven (index_count fuel : Nat) (hic : index_count < 2 ^ 32)
    (hfuel : 15 ≤ fuel) :
    ∃ m, auto_max_level fuel index_count = some m
      ∧ m ≤ 7
      ∧ m ≠ 15
      ∧ (∀ k, k ≤ m → 1 <<< (2 * k + 2) < 2 ^ 64
          ∧ (1 <<< (2 * k + 2)) * TARGET_CELL_IDX_COUNT < 2 ^ 64)
      ∧ 2 ^ m ≤ 128
      ∧ int_shl_one m = some (2 ^ m)
      ∧ (∀ lod x y z : Int, 0 ≤ lod → lod ≤ m → 0 ≤ x → x ≤ 2 ^ m → 0 ≤ y → y ≤ 2 ^ m →
          0 ≤ z → z ≤ 2 ^ m → (CellCoord.mk lod x y z).wf) := by
  obtain ⟨m, hm, h15, hlt, hge⟩ := auto_max_level_loop index_count fuel hfuel
  have h7 : m ≤ 7 := by
    by_contra hcon
    have := hlt 7 (by omega)
    norm_num at this hic
    omega
  have hpow : 2 ^ m ≤ 128 := by
    calc 2 ^ m ≤ 2 ^ 7 := Nat.pow_le_pow_right (by decide) h7
      _ = 128 := by norm_num
  have hpowZ : (2 : Int) ^ m ≤ 128 := by exact_mod_cast hpow
  refine ⟨m, hm, h7, by omega, ?_, hpow, ?_, ?_⟩
  · intro k hk
    have hk7 : k ≤ 7 := by omega
    unfold TARGET_CELL_IDX_COUNT
    interval_cases k <;> norm_num [Nat.shiftLeft_eq]
  · unfold int_shl_one
    rw [if_pos (by omega)]
    simp [Nat.shiftLeft_eq]
  · intro lod x y z l0 l1 x0 x1 y0 y1 z0 z1
    have hmZ : (m : Int) ≤ 7 := by exact_mod_cast h7
    simp only [CellCoord.wf, isInt16]
    omega

/-- Witness for C12: the largest 32-bit index count, 15 units of fuel. -/
theorem auto_max_level_le_seven_witness :
    4294967295 < 2 ^ 32 ∧ 15 ≤ 15
      ∧ ∃ m, auto_max_level 15 4294967295 = some m ∧ m ≤ 7 ∧ 2 ^ m ≤ 128
        ∧ int_shl_one m = some (2 ^ m) :=
  ⟨by decide, by decide, by
    obtain ⟨m, h1, h2, _, _, h5, h6, _⟩ :=
      auto_max_level_le_seven 4294967295 15 (by decide) (by decide)
    exact ⟨m, h1, h2, h5, h6⟩⟩

theorem reallocIf_ok (c : Bool) (heap : Heap) (id : ArrId) (ptr p : Arr) (n : Nat)
    (h : reallocIf c heap id ptr n = Except.ok p) : p = if c then some n else ptr := by
  unfold reallocIf REALLOC_NUM at h
  cases c
  · simp at h; simp [h]
  · cases hh : heap id n
    · simp [hh] at h
    · simp [hh] at h; simp [h]

theorem reserve_indices_ok_cases (heap : Heap) (m m1 : MBuf) (n : Nat) (shrink : Bool)
    (h : m.reserve_indices heap n shrink = Except.ok m1) :
    m1 = m ∨ m1 = { m with indices := some n, idx_capacity := n } := by
  unfold MBuf.reserve_indices REALLOC_NUM at h
  split at h
  · simp at h
  · split at h
    · simp at h; exact Or.inl h.symm
    · cases hh : heap ArrId.indices n
      · simp [hh] at h
      · simp [hh] at h; exact Or.inr h.symm

theorem reserve_vertices_ok_cases (A : VtxAttr) (heap : Heap) (m m1 : MBuf) (n : Nat)
    (shrink : Bool) (h : m.reserve_vertices A heap n shrink = Except.ok m1) :
    m1 = m ∨ m1 = { m with
        positions := some n
        normals := if m.vtx_attr &&& A.NML ≠ 0 then some n else m.normals
        uv0 := if m.vtx_attr &&& A.UV0 ≠ 0 then some n else m.uv0
        uv1 := if m.vtx_attr &&& A.UV1 ≠ 0 then some n else m.uv1
        remap := if m.vtx_attr &&& A.MAP ≠ 0 then some n else m.remap
        vtx_capacity := n } := by
  unfold MBuf.reserve_vertices at h
  split at h
  · simp at h
  · split at h
    · simp at h; exact Or.inl h.symm
    · split at h
      · simp at h
      · rename_i p0 h0
        split at h
        · simp at h
        · rename_i p1 h1
          split at h
          · simp at h
          · rename_i p2 h2
            split at h
            · simp at h
            · rename_i p3 h3
              split at h
              · simp at h
              · rename_i p4 h4
                have e0 := reallocIf_ok _ _ _ _ _ _ h0
                have e1 := reallocIf_ok _ _ _ _ _ _ h1
                have e2 := reallocIf_ok _ _ _ _ _ _ h2
                have e3 := reallocIf_ok _ _ _ _ _ _ h3
                have e4 := reallocIf_ok _ _ _ _ _ _ h4
                simp only [Except.ok.injEq] at h
                right
                rw [← h, e0, e1, e2, e3, e4]
                simp

theorem arenaInv_empty (A : VtxAttr) (a : Nat) : ArenaInv A (MBuf.empty a) := by
  unfold ArenaInv MBuf.empty
  simp [Arr.count]

theorem arenaInv_clear (A : VtxAttr) (m : MBuf) : ArenaInv A m.clear := by
  unfold ArenaInv MBuf.clear MEMFREE
  simp [Arr.count]

theorem arenaInv_reserve_indices (A : VtxAttr) (heap : Heap) (m m1 : MBuf) (n : Nat)
    (shrink : Bool) (hinv : ArenaInv A m)
    (h : m.reserve_indices heap n shrink = Except.ok m1) : ArenaInv A m1 := by
  rcases reserve_indices_ok_cases heap m m1 n shrink h with e | e
  · rw [e]; exact hinv
  · rw [e]
    obtain ⟨_, h2, h3, h4, h5, h6⟩ := hinv
    exact ⟨rfl, h2, h3, h4, h5, h6⟩

theorem arenaInv_reserve_vertices (A : VtxAttr) (heap : Heap) (m m1 : MBuf) (n : Nat)
    (shrink : Bool) (hinv : ArenaInv A m)
    (h : m.reserve_vertices A heap n shrink = Except.ok m1) : ArenaInv A m1 := by
  rcases reserve_vertices_ok_cases A heap m m1 n shrink h with e | e
  · rw [e]; exact hinv
  · rw [e]
    obtain ⟨h1, _, h3, h4, h5, h6⟩ := hinv
    refine ⟨h1, rfl, ?_, ?_, ?_, ?_⟩
    · by_cases hb : m.vtx_attr &&& A.NML = 0
      · simpa [hb] using h3
      · simp [hb, Arr.count]
    · by_cases hb : m.vtx_attr &&& A.UV0 = 0
      · simpa [hb] using h4
      · simp [hb, Arr.count]
    · by_cases hb : m.vtx_attr &&& A.UV1 = 0
      · simpa [hb] using h5
      · simp [hb, Arr.count]
    · by_cases hb : m.vtx_attr &&& A.MAP = 0
      · simpa [hb] using h6
      · simp [hb, Arr.count]

theorem reserve_indices_frame (heap : Heap) (m m1 : MBuf) (n : Nat) (shrink : Bool)
    (h : m.reserve_indices heap n shrink = Except.ok m1) :
    m1.vtx_capacity = m.vtx_capacity ∧ m1.positions = m.positions ∧ m1.normals = m.normals
      ∧ m1.uv0 = m.uv0 ∧ m1.uv1 = m.uv1 ∧ m1.remap = m.remap ∧ m1.vtx_attr = m.vtx_attr := by
  rcases reserve_indices_ok_cases heap m m1 n shrink h with e | e <;> rw [e] <;>
    exact ⟨rfl, rfl, rfl, rfl, rfl, rfl, rfl⟩

theorem reserve_vertices_frame (A : VtxAttr) (heap : Heap) (m m1 : MBuf) (n : Nat)
    (shrink : Bool) (h : m.reserve_vertices A heap n shrink = Except.ok m1) :
    m1.idx_capacity = m.idx_capacity ∧ m1.indices = m.indices ∧ m1.vtx_attr = m.vtx_attr := by
  rcases reserve_vertices_ok_cases A heap m m1 n shrink h with e | e <;> rw [e] <;>
    exact ⟨rfl, rfl, rfl⟩

theorem arenaInv_apply (A : VtxAttr) (heap : Heap) (m m1 : MBuf) (op : ArenaOp)
    (hinv : ArenaInv A m) (h : op.apply A heap m = Except.ok m1) :
    ArenaInv A m1 ∧ m1.vtx_attr = m.vtx_attr := by
  cases op with
  | clear =>
    simp only [ArenaOp.apply, Except.ok.injEq] at h
    rw [← h]
    exact ⟨arenaInv_clear A m, rfl⟩
  | reserve_indices n s =>
    exact ⟨arenaInv_reserve_indices A heap m m1 n s hinv h,
      (reserve_indices_frame heap m m1 n s h).2.2.2.2.2.2⟩
  | reserve_vertices n s =>
    exact ⟨arenaInv_reserve_vertices A heap m m1 n s hinv h,
      (reserve_vertices_frame A heap m m1 n s h).2.2⟩

theorem arenaInv_run (A : VtxAttr) (ops : List (Heap × ArenaOp)) :
    ∀ m m1 : MBuf, ArenaInv A m → run_ops A m ops = Except.ok m1 →
      ArenaInv A m1 ∧ m1.vtx_attr = m.vtx_attr := by
  induction ops with
  | nil =>
    intro m m1 hinv h
    simp only [run_ops, Except.ok.injEq] at h
    rw [← h]; exact ⟨hinv, rfl⟩
  | cons p rest ih =>
    intro m m1 hinv h
    obtain ⟨heap, op⟩ := p
    unfold run_ops at h
    split at h
    · exact Except.noConfusion h
    · rename_i m2 h2
      obtain ⟨i2, a2⟩ := arenaInv_apply A heap m m2 op hinv h2
      obtain ⟨i1, a1⟩ := ih m2 m1 i2 h
      exact ⟨i1, a1.trans a2⟩

theorem apply_completes (A : VtxAttr) (heap : Heap) (m : MBuf) (op : ArenaOp)
    (hpos : op.positive = true) (hheap : ∀ id n, heap id n = true) :
    ∃ m1, op.apply A heap m = Except.ok m1 := by
  cases op with
  | clear => exact ⟨_, rfl⟩
  | reserve_indices n s =>
    simp only [ArenaOp.positive, decide_eq_true_eq] at hpos
    exact ⟨_, reserve_indices_eq heap m n s hpos (hheap _ _)⟩
  | reserve_vertices n s =>
    simp only [ArenaOp.positive, decide_eq_true_eq] at hpos
    exact ⟨_, reserve_vertices_eq A heap m n s hpos (fun id _ => hheap id n)⟩

theorem run_completes (A : VtxAttr) (ops : List (Heap × ArenaOp)) :
    ∀ m : MBuf, (∀ p ∈ ops, p.2.positive = true) → (∀ p ∈ ops, ∀ id n, p.1 id n = true) →
      ∃ m1, run_ops A m ops = Except.ok m1 := by
  induction ops with
  | nil => intro m _ _; exact ⟨m, rfl⟩
  | cons p rest ih =>
    intro m hpos hheap
    obtain ⟨heap, op⟩ := p
    obtain ⟨m2, h2⟩ := apply_completes A heap m op (hpos (heap, op) (List.mem_cons_self _ _))
      (hheap (heap, op) (List.mem_cons_self _ _))
    obtain ⟨m1, h1⟩ := ih m2 (fun q hq => hpos q (List.mem_cons_of_mem _ hq))
      (fun q hq => hheap q (List.mem_cons_of_mem _ hq))
    refine ⟨m1, ?_⟩
    unfold run_ops
    rw [h2]
    exact h1

/-- C14: arena size invariant. For a fixed `vtx_attr`, starting from the empty
arena, every sequence of `clear()`, `reserve_indices(n, s)` and
`reserve_vertices(n, s)` with `n > 0` that runs to its end leaves `vtx_attr`
as it was and an arena in which `indices` holds exactly `idx_capacity`
elements, `positions` and every optional array whose bit is set hold exactly
`vtx_capacity` elements, and every optional array whose bit is not set is
unallocated; the sequence does run to its end when its allocations succeed.
Moreover, on any arena, `reserve_indices` changes neither `vtx_capacity` nor a
vertex array, and `reserve_vertices` changes neither `idx_capacity` nor
`indices`. -/
theorem arena_size_invariant (A : VtxAttr) (a : Nat) (ops : List (Heap × ArenaOp))
    (hpos : ∀ p ∈ ops, p.2.positive = true) :
    (∀ m1, run_ops A (MBuf.empty a) ops = Except.ok m1 → ArenaInv A m1 ∧ m1.vtx_attr = a)
      ∧ ((∀ p ∈ ops, ∀ id n, p.1 id n = true) →
          ∃ m1, run_ops A (MBuf.empty a) ops = Except.ok m1 ∧ ArenaInv A m1)
      ∧ (∀ (heap : Heap) (m m1 : MBuf) (n : Nat) (s : Bool),
          m.reserve_indices heap n s = Except.ok m1 →
          m1.vtx_capacity = m.vtx_capacity ∧ m1.positions = m.positions
            ∧ m1.normals = m.normals ∧ m1.uv0 = m.uv0 ∧ m1.uv1 = m.uv1 ∧ m1.remap = m.remap
            ∧ m1.vtx_attr = m.vtx_attr)
      ∧ (∀ (heap : Heap) (m m1 : MBuf) (n : Nat) (s : Bool),
          m.reserve_vertices A heap n s = Except.ok m1 →
          m1.idx_capacity = m.idx_capacity ∧ m1.indices = m.indices
            ∧ m1.vtx_attr = m.vtx_attr) := by
  refine ⟨?_, ?_, fun heap m m1 n s h => reserve_indices_frame heap m m1 n s h,
    fun heap m m1 n s h => reserve_vertices_frame A heap m m1 n s h⟩
  · intro m1 h
    exact arenaInv_run A ops (MBuf.empty a) m1 (arenaInv_empty A a) h
  · intro hheap
    obtain ⟨m1, h1⟩ := run_completes A ops (MBuf.empty a) hpos hheap
    exact ⟨m1, h1, (arenaInv_run A ops (MBuf.empty a) m1 (arenaInv_empty A a) h1).1⟩

/-- Witness for C14: with normals and remap enabled (`vtx_attr = 9`), reserve
4 vertices, reserve 6 indices, clear, then reserve 2 vertices with `shrink`. -/
theorem arena_size_invariant_witness :
    (∀ p ∈ [((fun _ _ => true : Heap), ArenaOp.reserve_vertices 4 false),
          ((fun _ _ => true : Heap), ArenaOp.reserve_indices 6 false),
          ((fun _ _ => true : Heap), ArenaOp.clear),
          ((fun _ _ => true : Heap), ArenaOp.reserve_vertices 2 true)], p.2.positive = true)
      ∧ ∃ m1, run_ops (VtxAttr.mk 1 2 4 8) (MBuf.empty 9)
            [((fun _ _ => true : Heap), ArenaOp.reserve_vertices 4 false),
              ((fun _ _ => true : Heap), ArenaOp.reserve_indices 6 false),
              ((fun _ _ => true : Heap), ArenaOp.clear),
              ((fun _ _ => true : Heap), ArenaOp.reserve_vertices 2 true)] = Except.ok m1
          ∧ ArenaInv (VtxAttr.mk 1 2 4 8) m1 :=
  ⟨by simp [ArenaOp.positive],
    (arena_size_invariant (VtxAttr.mk 1 2 4 8) 9
      [((fun _ _ => true : Heap), ArenaOp.reserve_vertices 4 false),
        ((fun _ _ => true : Heap), ArenaOp.reserve_indices 6 false),
        ((fun _ _ => true : Heap), ArenaOp.clear),
        ((fun _ _ => true : Heap), ArenaOp.reserve_vertices 2 true)]
      (by simp [ArenaOp.positive])).2.1 (by simp)⟩

end Myosotis
